import Mathlib

/-
Verification of the markdown structural scanner (parse_markdown.py) of the
x-article-publisher skill.  The scanner is embedded shallowly: each Python
helper becomes a Lean function over `List Char` / `String`, the mutable scan
loop becomes a fuel-indexed recursive function over the line list, and the
returned dictionary becomes the `Doc` structure.
-/

namespace MD

/-- Whitespace characters stripped by the scanner (space, tab, CR, LF). -/
def wsC (c : Char) : Bool := c = ' ' || c = '\t' || c = '\r' || c = '\n'

/-- The backtick character. -/
def btick : Char := Char.ofNat 96

/-- Test whether the first list is a prefix of the second. -/
def leadsWith : List Char → List Char → Bool
  | [], _ => true
  | _ :: _, [] => false
  | a :: as, b :: bs => a = b && leadsWith as bs

/-- Remove trailing whitespace characters. -/
def dropTrail (l : List Char) : List Char := (l.reverse.dropWhile wsC).reverse

/-- Remove leading and trailing whitespace (Python str.strip). -/
def trimC (l : List Char) : List Char := dropTrail (l.dropWhile wsC)

/-- Python line.strip() on strings. -/
def strTrim (s : String) : String := String.mk (trimC s.data)

/-- Split a character list at every occurrence of the separator
(Python str.split with an explicit separator: keeps empty pieces). -/
def splitCh (sep : Char) : List Char → List (List Char)
  | [] => [[]]
  | c :: cs =>
    if c = sep then [] :: splitCh sep cs
    else match splitCh sep cs with
      | h :: t => (c :: h) :: t
      | [] => [[c]]

/-- Join strings with a separator (Python sep.join). -/
def joinSep (sep : String) : List String → String
  | [] => ""
  | [x] => x
  | x :: y :: t => x ++ sep ++ joinSep sep (y :: t)

/-- Split at the first occurrence of a character: the part strictly before it
and the part strictly after it, or `none` if the character does not occur. -/
def splitAtCh (c : Char) : List Char → Option (List Char × List Char)
  | [] => none
  | x :: xs =>
    if x = c then some ([], xs)
    else match splitAtCh c xs with
      | some p => some (x :: p.1, p.2)
      | none => none

/-- Relative index of the first occurrence of the needle in the haystack,
counting from `k` (Python str.find restricted to a suffix). -/
def findFrom (needle : List Char) : List Char → Nat → Option Nat
  | [], k => if leadsWith needle [] then some k else none
  | l@(_ :: t), k => if leadsWith needle l then some k else findFrom needle t (k + 1)

/-- Whether the needle occurs anywhere in the haystack. -/
def occursIn (needle l : List Char) : Bool := (findFrom needle l 0).isSome

/-- Python os.path.join for two posix path components. -/
def pjoin (a b : String) : String :=
  if leadsWith ['/'] b.data then b
  else if a = "" || leadsWith ['/'] a.data.reverse then a ++ b
  else a ++ "/" ++ b

/-- Python posix os.path.normpath. -/
def normpath (p : String) : String :=
  if p = "" then "." else
  let slashes : Nat :=
    if leadsWith ['/', '/'] p.data && !(leadsWith ['/', '/', '/'] p.data) then 2
    else if leadsWith ['/'] p.data then 1 else 0
  let comps := ((splitCh '/' p.data).map String.mk).filter (fun c => c ≠ "" && c ≠ ".")
  let newComps := comps.foldl (fun acc comp =>
    if comp ≠ ".." || (slashes = 0 && acc.isEmpty) || acc.getLast? = some ".." then
      acc ++ [comp]
    else if acc.isEmpty then acc else acc.dropLast) []
  let res := String.mk (List.replicate slashes '/') ++ joinSep "/" newComps
  if res = "" then "." else res

/-- Image path resolution of parse_markdown.py lines 104-106: a path that is
not absolute and does not start with "http" is joined to the document
directory and normalised; all other paths are left unchanged. -/
def resolvePath (md_dir p : String) : String :=
  if !(leadsWith ['/'] p.data) && !(leadsWith ['h', 't', 't', 'p'] p.data) then
    normpath (pjoin md_dir p)
  else p

/-- strip_frontmatter of parse_markdown.py lines 24-30: if the text starts
with the substring "---", search for the next occurrence of the substring
"---" from offset 3; when found, keep everything after it and strip leading
newline characters; otherwise return the text unchanged. -/
def strip_frontmatter (text : String) : String :=
  if leadsWith ['-', '-', '-'] text.data then
    match findFrom ['-', '-', '-'] (text.data.drop 3) 0 with
    | some e => String.mk ((text.data.drop (3 + e + 3)).dropWhile (fun c => c = '\n'))
    | none => text
  else text

/-- Shortest non-empty middle part (whose characters all avoid `bad`) followed
by the closing delimiter: the lazy group match of the regexes in
inline_format.  Returns the middle and the remainder after the delimiter. -/
def findMid (bad : Char → Bool) (close : List Char) : List Char → Option (List Char × List Char)
  | [] => none
  | c :: cs =>
    if bad c then none
    else if leadsWith close cs then some ([c], cs.drop close.length)
    else match findMid bad close cs with
      | some p => some (c :: p.1, p.2)
      | none => none

/-- One re.sub pass for a delimiter pair: scan left to right; at each match of
`dopen` followed by a lazy middle and `dclose`, emit `L ++ middle ++ R` and
continue after the match. -/
def subWrap (bad : Char → Bool) (dopen dclose L R : List Char) : Nat → List Char → List Char
  | 0, l => l
  | _ + 1, [] => []
  | f + 1, c :: cs =>
    if leadsWith dopen (c :: cs) then
      match findMid bad dclose ((c :: cs).drop dopen.length) with
      | some p => L ++ p.1 ++ R ++ subWrap bad dopen dclose L R f p.2
      | none => c :: subWrap bad dopen dclose L R f cs
    else c :: subWrap bad dopen dclose L R f cs

/-- The link substitution pass: [text](url) becomes an anchor tag. -/
def subLink : Nat → List Char → List Char
  | 0, l => l
  | _ + 1, [] => []
  | f + 1, c :: cs =>
    if c = '[' then
      match findMid (fun x => x = ']') [']'] cs with
      | some p =>
        match p.2 with
        | c2 :: r2 =>
          if c2 = '(' then
            match findMid (fun x => x = ')') [')'] r2 with
            | some q =>
              "<a href=".data ++ ['"'] ++ q.1 ++ ['"', '>'] ++ p.1 ++ "</a>".data
                ++ subLink f q.2
            | none => c :: subLink f cs
          else c :: subLink f cs
        | [] => c :: subLink f cs
      | none => c :: subLink f cs
    else c :: subLink f cs

/-- inline_format of parse_markdown.py lines 245-259: the six substitution
passes applied in order (bold+italic, bold, italic, strikethrough, inline
code, links). -/
def inline_format (text : String) : String :=
  let nl : Char → Bool := fun c => c = '\n'
  let t1 := String.mk (subWrap nl "***".data "***".data "<strong><em>".data "</em></strong>".data text.data.length text.data)
  let t2 := String.mk (subWrap nl "**".data "**".data "<strong>".data "</strong>".data t1.data.length t1.data)
  let t3 := String.mk (subWrap nl "*".data "*".data "<em>".data "</em>".data t2.data.length t2.data)
  let t4 := String.mk (subWrap nl "~~".data "~~".data "<del>".data "</del>".data t3.data.length t3.data)
  let t5 := String.mk (subWrap (fun c => c = btick) [btick] [btick] "<strong>".data "</strong>".data t4.data.length t4.data)
  String.mk (subLink t5.data.length t5.data)

/-- Code fence detection: line.strip().startswith three backticks. -/
def isFence (l : String) : Bool := leadsWith [btick, btick, btick] (trimC l.data)

/-- Language tag of an opening fence: strip, remove leading backticks, strip. -/
def fenceLang (l : String) : String :=
  String.mk (trimC ((trimC l.data).dropWhile (fun c => c = btick)))

/-- H1 line: the raw line matches the anchored pattern hash-space-text. -/
def isH1 (l : String) : Bool :=
  match l.data with
  | a :: b :: t => a = '#' && b = ' ' && !t.isEmpty
  | _ => false

/-- Title text of an H1 line: everything after "# ", stripped. -/
def h1Text (l : String) : String := String.mk (trimC (l.data.drop 2))

/-- Standalone image match on a stripped line: exclamation, bracketed alt up
to the first closing bracket, parenthesised non-empty path up to the first
closing parenthesis, then only whitespace.  Returns the stripped path. -/
def matchImage (s : String) : Option String :=
  match s.data with
  | a :: b :: r =>
    if a = '!' && b = '[' then
      match splitAtCh ']' r with
      | some p =>
        match p.2 with
        | c :: r2 =>
          if c = '(' then
            match splitAtCh ')' r2 with
            | some q =>
              if !q.1.isEmpty && q.2.all wsC then some (String.mk (trimC q.1)) else none
            | none => none
          else none
        | [] => none
      | none => none
    else none
  | _ => none

/-- Divider shape on a stripped line: at least three dashes (or stars)
followed only by whitespace. -/
def divShape (s : List Char) : Bool :=
  (3 ≤ (s.takeWhile (fun c => c = '-')).length && (s.dropWhile (fun c => c = '-')).all wsC) ||
  (3 ≤ (s.takeWhile (fun c => c = '*')).length && (s.dropWhile (fun c => c = '*')).all wsC)

/-- Divider detection on a raw line (applied to its stripped form). -/
def is_divider (l : String) : Bool := divShape (trimC l.data)

/-- H2-H6 heading match on the raw line: 2 to 6 hashes, a space, and
non-empty text.  Returns the level and the raw heading text. -/
def matchH26 (l : String) : Option (Nat × String) :=
  match l.data.dropWhile (fun c => c = '#') with
  | c :: t =>
    if c = ' ' && 2 ≤ (l.data.takeWhile (fun c => c = '#')).length &&
        (l.data.takeWhile (fun c => c = '#')).length ≤ 6 && !t.isEmpty then
      some ((l.data.takeWhile (fun c => c = '#')).length, String.mk t)
    else none
  | [] => none

/-- Blockquote line shape on a stripped line. -/
def qShape (s : List Char) : Bool := leadsWith ['>', ' '] s

/-- Unordered list item shape on a stripped line: marker then a space. -/
def uShape (s : List Char) : Bool :=
  match s with
  | m :: c :: _ => (m = '-' || m = '*' || m = '+') && c = ' '
  | _ => false

/-- Ordered list item shape on a stripped line: digits, a dot, a space. -/
def oShape (s : List Char) : Bool :=
  !(s.takeWhile Char.isDigit).isEmpty && leadsWith ['.', ' '] (s.dropWhile Char.isDigit)

/-- Table row shape on a stripped line: a pipe, at least one character, and a
later pipe. -/
def tShape (s : List Char) : Bool :=
  match s with
  | a :: t => a = '|' && (t.drop 1).any (fun c => c = '|')
  | [] => false

/-- Blockquote run continuation (the line stripped starts with "> "). -/
def quoteCont (l : String) : Bool := qShape (trimC l.data)

/-- Unordered list run continuation (optional indentation before marker). -/
def uCont (l : String) : Bool := uShape (l.data.dropWhile wsC)

/-- Ordered list run continuation (optional indentation before number). -/
def oCont (l : String) : Bool := oShape (l.data.dropWhile wsC)

/-- Table run continuation (optional indentation before the pipes). -/
def tCont (l : String) : Bool := tShape (l.data.dropWhile wsC)

/-- The _is_block_start helper of parse_markdown.py lines 221-242. -/
def is_block_start (l : String) : Bool :=
  (trimC l.data).isEmpty ||
  (1 ≤ ((trimC l.data).takeWhile (fun c => c = '#')).length &&
    ((trimC l.data).takeWhile (fun c => c = '#')).length ≤ 6 &&
    leadsWith [' '] ((trimC l.data).dropWhile (fun c => c = '#'))) ||
  qShape (trimC l.data) || uShape (trimC l.data) || oShape (trimC l.data) ||
  leadsWith [btick, btick, btick] (trimC l.data) || divShape (trimC l.data) ||
  leadsWith ['!', '['] (trimC l.data) || tShape (trimC l.data)

/-- Paragraph run continuation: non-blank and not a block start. -/
def paraCont (l : String) : Bool := !(trimC l.data).isEmpty && !is_block_start l

/-- Text of one blockquote line: strip, drop the two marker characters. -/
def quoteItem (l : String) : String := String.mk ((trimC l.data).drop 2)

/-- Text of one unordered list item: drop indentation, marker, space; strip. -/
def uItem (l : String) : String := String.mk (trimC ((l.data.dropWhile wsC).drop 2))

/-- Text of one ordered list item: drop indentation, digits, dot, space; strip. -/
def oItem (l : String) : String :=
  String.mk (trimC (((l.data.dropWhile wsC).dropWhile Char.isDigit).drop 2))

/-- The emitted blockquote HTML block. -/
def quoteBlock (run : List String) : String :=
  "<blockquote>" ++ inline_format (joinSep " " (run.map quoteItem)) ++ "</blockquote>"

/-- The emitted list HTML block (tag "ul" or "ol"). -/
def listBlock (tag : String) (items : List String) : String :=
  "<" ++ tag ++ ">" ++ joinSep "" (items.map (fun t => "<li>" ++ inline_format t ++ "</li>"))
    ++ "</" ++ tag ++ ">"

/-- The emitted heading HTML block for levels 2-6. -/
def hBlock (n : Nat) (t : String) : String :=
  "<h" ++ Nat.repr n ++ ">" ++ inline_format (strTrim t) ++ "</h" ++ Nat.repr n ++ ">"

/-- The emitted paragraph HTML block. -/
def pBlock (run : List String) : String :=
  "<p>" ++ inline_format (joinSep " " (run.map strTrim)) ++ "</p>"

/-- A content image entry: resolved path and attachment index. -/
structure ImageRef where
  path : String
  block_index : Nat
  deriving DecidableEq

/-- A code_blocks entry: language (or the reserved table sentinel), raw text,
and attachment index. -/
structure CodeBlock where
  language : String
  code : String
  block_index : Nat
  deriving DecidableEq

/-- The mutable state of the scan loop of parse_markdown. -/
structure St where
  title : String
  cover_image : Option String
  content_images : List ImageRef
  code_blocks : List CodeBlock
  dividers : List Nat
  body_lines : List String
  in_code : Bool
  code_lang : String
  code_content : List String
  first_image_seen : Bool
  block_index : Nat
  deriving DecidableEq

/-- The structured document returned by parse_markdown. -/
structure Doc where
  title : String
  cover_image : Option String
  content_images : List ImageRef
  code_blocks : List CodeBlock
  dividers : List Nat
  total_blocks : Nat
  html : String
  deriving DecidableEq

/-- Classification of a line outside code fences, mirroring the if-chain of
the scan loop (after the fence / in-code checks). -/
inductive LineKind where
  | h1Take (t : String)
  | image (p : String)
  | divider
  | blank
  | heading (n : Nat) (t : String)
  | quote
  | ulist
  | olist
  | table
  | para

/-- Classify one line, given whether the title is still unset. -/
def classify (tEmpty : Bool) (l : String) : LineKind :=
  if isH1 l && tEmpty then .h1Take (h1Text l)
  else match matchImage (strTrim l) with
  | some p => .image p
  | none =>
    if is_divider l then .divider
    else if (trimC l.data).isEmpty then .blank
    else match matchH26 l with
    | some nt => .heading nt.1 nt.2
    | none =>
      if quoteCont l then .quote
      else if uShape (trimC l.data) then .ulist
      else if oShape (trimC l.data) then .olist
      else if tShape (trimC l.data) then .table
      else .para

/-- The `code_lang or "text"` default of line 77. -/
def langOr (s : String) : String := if s = "" then "text" else s

/-- One iteration of the scan loop of parse_markdown.py lines 58-206: given
the current state and the remaining lines (split into head and tail), return
the updated state and the lines still to be processed.  Every iteration
consumes at least one line. -/
def stepOf (md : String) (st : St) (l : String) (rest : List String) : St × List String :=
  if isFence l then
    if st.in_code then
      if (trimC (joinSep "\n" st.code_content).data).isEmpty then
        ({st with in_code := false, code_lang := "", code_content := []}, rest)
      else
        ({st with
          code_blocks := st.code_blocks ++
            [⟨langOr st.code_lang, joinSep "\n" st.code_content, st.block_index⟩]
          block_index := st.block_index + 1
          in_code := false
          code_lang := ""
          code_content := []}, rest)
    else
      ({st with in_code := true, code_lang := fenceLang l, code_content := []}, rest)
  else if st.in_code then
    ({st with code_content := st.code_content ++ [l]}, rest)
  else
    match classify (st.title == "") l with
    | .h1Take t => ({st with title := t}, rest)
    | .image p =>
      if st.first_image_seen then
        ({st with content_images :=
          st.content_images ++ [⟨resolvePath md p, st.block_index⟩]}, rest)
      else
        ({st with cover_image := some (resolvePath md p), first_image_seen := true}, rest)
    | .divider => ({st with dividers := st.dividers ++ [st.block_index]}, rest)
    | .blank => (st, rest)
    | .heading n t =>
      ({st with
        body_lines := st.body_lines ++ [hBlock n t]
        block_index := st.block_index + 1}, rest)
    | .quote =>
      ({st with
        body_lines := st.body_lines ++ [quoteBlock ((l :: rest).takeWhile quoteCont)]
        block_index := st.block_index + 1}, (l :: rest).dropWhile quoteCont)
    | .ulist =>
      ({st with
        body_lines := st.body_lines ++
          [listBlock "ul" (((l :: rest).takeWhile uCont).map uItem)]
        block_index := st.block_index + 1}, (l :: rest).dropWhile uCont)
    | .olist =>
      ({st with
        body_lines := st.body_lines ++
          [listBlock "ol" (((l :: rest).takeWhile oCont).map oItem)]
        block_index := st.block_index + 1}, (l :: rest).dropWhile oCont)
    | .table =>
      if 2 ≤ ((l :: rest).takeWhile tCont).length then
        ({st with
          code_blocks := st.code_blocks ++
            [⟨"__table__", joinSep "\n" (((l :: rest).takeWhile tCont).map strTrim),
              st.block_index⟩]
          block_index := st.block_index + 1}, (l :: rest).dropWhile tCont)
      else (st, (l :: rest).dropWhile tCont)
    | .para =>
      if ((l :: rest).takeWhile paraCont).isEmpty then (st, rest)
      else
        ({st with
          body_lines := st.body_lines ++ [pBlock ((l :: rest).takeWhile paraCont)]
          block_index := st.block_index + 1}, (l :: rest).dropWhile paraCont)

/-- The scan loop of parse_markdown.py lines 58-206, as a fuel-indexed
recursion over the remaining lines.  Fuel equal to the number of lines runs
the loop to completion, because every iteration consumes at least one line. -/
def parseFuel (md : String) : Nat → St → List String → St
  | 0, st, _ => st
  | _ + 1, st, [] => st
  | f + 1, st, l :: rest =>
    parseFuel md f (stepOf md st l rest).1 (stepOf md st l rest).2

/-- The initial scan state. -/
def initSt : St := ⟨"", none, [], [], [], [], false, "", [], false, 0⟩

/-- The line sequence handed to the scan loop: frontmatter-stripped content
split on newlines. -/
def mdLines (content : String) : List String :=
  (splitCh '\n' (strip_frontmatter content).data).map String.mk

/-- The final scan state for a document. -/
def parseSt (md_dir content : String) : St :=
  parseFuel md_dir (mdLines content).length initSt (mdLines content)

/-- Project the scan state onto the returned document structure. -/
def docOf (st : St) : Doc :=
  ⟨st.title, st.cover_image, st.content_images, st.code_blocks, st.dividers,
    st.block_index, joinSep "\n" st.body_lines⟩

/-- parse_markdown as a pure function of source directory and file content. -/
def parse_markdown (md_dir content : String) : Doc := docOf (parseSt md_dir content)

/-- Modelled from the spec: a valid table separator row is a row composed
only of pipes, dashes, colons, and whitespace. -/
def isSepRow (s : String) : Bool :=
  !s.data.isEmpty && s.data.all (fun c => c = '|' || c = '-' || c = ':' || wsC c)

/-- Characters allowed in a URL scheme after the initial letter. -/
def schemeChar (c : Char) : Bool := c.isAlpha || c.isDigit || c = '+' || c = '-' || c = '.'

/-- Modelled from the spec: a path carries a URL scheme when it starts with a
letter followed by scheme characters and a colon. -/
def carriesUrlScheme (p : String) : Bool :=
  match p.data with
  | c :: _ => c.isAlpha && leadsWith [':'] (p.data.dropWhile schemeChar)
  | [] => false

/-- Modelled from the spec: the text begins with the triple-dash marker line,
that is, its first line is exactly the marker. -/
def beginsWithMarkerLine (t : String) : Bool :=
  t = "---" || leadsWith ['-', '-', '-', '\n'] t.data

/-- The block-index bookkeeping invariant maintained by the scan loop: the
counter equals emitted HTML blocks plus code/table entries, every recorded
index is bounded by the counter, recorded indices are non-decreasing in
encounter order, and every code_blocks language is non-empty. -/
def StInv (st : St) : Prop :=
  st.block_index = st.body_lines.length + st.code_blocks.length ∧
  (∀ e ∈ st.content_images, e.block_index ≤ st.block_index) ∧
  (∀ e ∈ st.code_blocks, e.block_index ≤ st.block_index) ∧
  (∀ n ∈ st.dividers, n ≤ st.block_index) ∧
  List.Pairwise (· ≤ ·) (st.content_images.map ImageRef.block_index) ∧
  List.Pairwise (· ≤ ·) (st.code_blocks.map CodeBlock.block_index) ∧
  List.Pairwise (· ≤ ·) st.dividers ∧
  (∀ e ∈ st.code_blocks, e.language ≠ "")

/-- No inline-formatting marker characters occur in the string. -/
def noMark (s : String) : Bool :=
  s.data.all (fun c => !(c = '*' || c = '~' || c = btick || c = '['))

/-! ### Prefix and trimming facts -/

theorem leadsWith_cons {a : Char} {as s : List Char} (h : leadsWith (a :: as) s = true) :
    ∃ t, s = a :: t ∧ leadsWith as t = true := by
  cases s with
  | nil => simp [leadsWith] at h
  | cons b bs =>
    simp only [leadsWith, Bool.and_eq_true, decide_eq_true_eq] at h
    exact ⟨bs, by rw [h.1], h.2⟩

theorem leadsWith_head {a : Char} {as s : List Char} (h : leadsWith (a :: as) s = true) :
    s.head? = some a := by
  obtain ⟨t, ht, -⟩ := leadsWith_cons h
  rw [ht]
  rfl

theorem leadsWith_refl_append (d t : List Char) : leadsWith d (d ++ t) = true := by
  induction d with
  | nil => rfl
  | cons a as ih => simp [leadsWith, ih]

theorem dropTrail_decomp (l : List Char) :
    ∃ w, l = dropTrail l ++ w ∧ ∀ c ∈ w, wsC c = true := by
  refine ⟨(l.reverse.takeWhile wsC).reverse, ?_, ?_⟩
  · calc l = l.reverse.reverse := (List.reverse_reverse l).symm
    _ = (l.reverse.takeWhile wsC ++ l.reverse.dropWhile wsC).reverse := by
        rw [List.takeWhile_append_dropWhile wsC l.reverse]
    _ = (l.reverse.dropWhile wsC).reverse ++ (l.reverse.takeWhile wsC).reverse := by
        rw [List.reverse_append]
    _ = dropTrail l ++ (l.reverse.takeWhile wsC).reverse := rfl
  · intro c hc
    rw [List.mem_reverse] at hc
    exact List.mem_takeWhile_imp hc

theorem dropTrail_head {c : Char} {l : List Char} (hc : wsC c = false) :
    (dropTrail (c :: l)).head? = some c := by
  obtain ⟨w, hw, hall⟩ := dropTrail_decomp (c :: l)
  cases h : dropTrail (c :: l) with
  | nil =>
    rw [h, List.nil_append] at hw
    have hcw : wsC c = true := hall c (hw ▸ List.mem_cons_self c l)
    rw [hc] at hcw
    cases hcw
  | cons a t =>
    rw [h, List.cons_append] at hw
    injection hw with h1 h2
    rw [h1]
    rfl

theorem trimC_head {c : Char} {l : List Char} (hc : wsC c = false) :
    (trimC (c :: l)).head? = some c := by
  unfold trimC
  rw [List.dropWhile_cons_of_neg (by simp [hc])]
  exact dropTrail_head hc

theorem isEmpty_false_of_head {s : List Char} {c : Char} (hh : s.head? = some c) :
    s.isEmpty = false := by
  cases s with
  | nil => cases hh
  | cons a t => rfl

/-! ### Head characterisations of the line matchers -/

theorem isFence_head {l : String} (h : isFence l = true) :
    (trimC l.data).head? = some btick := leadsWith_head h

theorem isH1_shape {l : String} (h : isH1 l = true) :
    ∃ t, l.data = '#' :: ' ' :: t ∧ t ≠ [] := by
  unfold isH1 at h
  rcases hd : l.data with _ | ⟨a, _ | ⟨b, t⟩⟩ <;> rw [hd] at h
  · cases h
  · cases h
  · simp only [Bool.and_eq_true, decide_eq_true_eq, Bool.not_eq_true',
      List.isEmpty_eq_false] at h
    exact ⟨t, by rw [h.1.1, h.1.2], h.2⟩

theorem isH1_head {l : String} (h : isH1 l = true) :
    (trimC l.data).head? = some '#' := by
  obtain ⟨t, ht, -⟩ := isH1_shape h
  rw [ht]
  exact trimC_head (by decide)

theorem matchImage_head {s : String} {p : String} (h : matchImage s = some p) :
    s.data.head? = some '!' := by
  unfold matchImage at h
  rcases hd : s.data with _ | ⟨a, _ | ⟨b, r⟩⟩ <;> rw [hd] at h
  · cases h
  · cases h
  · by_cases ha : a = '!'
    · rw [ha]
      rfl
    · simp [ha] at h

theorem divShape_head {s : List Char} (h : divShape s = true) :
    s.head? = some '-' ∨ s.head? = some '*' := by
  unfold divShape at h
  rw [Bool.or_eq_true] at h
  cases s with
  | nil => simp at h
  | cons a t =>
    cases h with
    | inl h =>
      left
      rw [Bool.and_eq_true] at h
      by_cases ha : a = '-'
      · rw [ha]
        rfl
      · rw [List.takeWhile_cons_of_neg (by simp [ha])] at h
        simp at h
    | inr h =>
      right
      rw [Bool.and_eq_true] at h
      by_cases ha : a = '*'
      · rw [ha]
        rfl
      · rw [List.takeWhile_cons_of_neg (by simp [ha])] at h
        simp at h

theorem matchH26_shape {l : String} {nt : Nat × String} (h : matchH26 l = some nt) :
    ∃ t, l.data = '#' :: t := by
  unfold matchH26 at h
  cases hd : l.data with
  | nil => rw [hd] at h; simp at h
  | cons a t =>
    by_cases ha : a = '#'
    · exact ⟨t, by rw [ha]⟩
    · rw [hd, List.dropWhile_cons_of_neg (by simp [ha]),
        List.takeWhile_cons_of_neg (by simp [ha])] at h
      simp at h

theorem matchH26_head {l : String} {nt : Nat × String} (h : matchH26 l = some nt) :
    (trimC l.data).head? = some '#' := by
  obtain ⟨t, ht⟩ := matchH26_shape h
  rw [ht]
  exact trimC_head (by decide)

theorem qShape_head {s : List Char} (h : qShape s = true) : s.head? = some '>' :=
  leadsWith_head h

theorem uShape_shape {s : List Char} (h : uShape s = true) :
    ∃ m t, s = m :: ' ' :: t ∧ (m = '-' ∨ m = '*' ∨ m = '+') := by
  rcases s with _ | ⟨m, _ | ⟨c, t⟩⟩ <;> unfold uShape at h
  · cases h
  · cases h
  · simp only [Bool.and_eq_true, Bool.or_eq_true, decide_eq_true_eq] at h
    exact ⟨m, t, by rw [h.2], or_assoc.mp h.1⟩

theorem oShape_shape {s : List Char} (h : oShape s = true) :
    ∃ c t, s = c :: t ∧ c.isDigit = true := by
  unfold oShape at h
  rw [Bool.and_eq_true] at h
  cases s with
  | nil => simp at h
  | cons a t =>
    by_cases ha : a.isDigit = true
    · exact ⟨a, t, rfl, ha⟩
    · rw [List.takeWhile_cons_of_neg (by simp [ha])] at h
      simp at h

theorem tShape_shape {s : List Char} (h : tShape s = true) :
    ∃ t, s = '|' :: t := by
  rcases s with _ | ⟨a, t⟩ <;> unfold tShape at h
  · cases h
  · simp only [Bool.and_eq_true, decide_eq_true_eq] at h
    exact ⟨t, by rw [h.1]⟩

/-! ### Branch refutations from the first non-whitespace character -/

theorem head_some_eq {s : List Char} {c d : Char} (h1 : s.head? = some c)
    (h2 : s.head? = some d) : c = d := by
  rw [h1] at h2
  exact Option.some.inj h2

theorem isFence_false_of_head {l : String} {c : Char}
    (hh : (trimC l.data).head? = some c) (hc : c ≠ btick) : isFence l = false := by
  cases hf : isFence l
  · rfl
  · exact absurd (head_some_eq hh (isFence_head hf)) hc

theorem isH1_false_of_head {l : String} {c : Char}
    (hh : (trimC l.data).head? = some c) (hc : c ≠ '#') : isH1 l = false := by
  cases hf : isH1 l
  · rfl
  · exact absurd (head_some_eq hh (isH1_head hf)) hc

theorem matchImage_none_of_head {l : String} {c : Char}
    (hh : (trimC l.data).head? = some c) (hc : c ≠ '!') :
    matchImage (strTrim l) = none := by
  cases hm : matchImage (strTrim l) with
  | none => rfl
  | some p =>
    have hi : (trimC l.data).head? = some '!' := matchImage_head hm
    exact absurd (head_some_eq hh hi) hc

theorem is_divider_false_of_head {l : String} {c : Char}
    (hh : (trimC l.data).head? = some c) (hc1 : c ≠ '-') (hc2 : c ≠ '*') :
    is_divider l = false := by
  cases hf : is_divider l
  · rfl
  · unfold is_divider at hf
    cases divShape_head hf with
    | inl h => exact absurd (head_some_eq hh h) hc1
    | inr h => exact absurd (head_some_eq hh h) hc2

theorem matchH26_none_of_head {l : String} {c : Char}
    (hh : (trimC l.data).head? = some c) (hc : c ≠ '#') : matchH26 l = none := by
  cases hm : matchH26 l with
  | none => rfl
  | some nt => exact absurd (head_some_eq hh (matchH26_head hm)) hc

theorem quoteCont_false_of_head {l : String} {c : Char}
    (hh : (trimC l.data).head? = some c) (hc : c ≠ '>') : quoteCont l = false := by
  cases hf : quoteCont l
  · rfl
  · exact absurd (head_some_eq hh (qShape_head hf)) hc

theorem uShape_false_of_head {l : String} {c : Char}
    (hh : (trimC l.data).head? = some c) (hc1 : c ≠ '-') (hc2 : c ≠ '*') (hc3 : c ≠ '+') :
    uShape (trimC l.data) = false := by
  cases hf : uShape (trimC l.data)
  · rfl
  · obtain ⟨m, t, hmt, hm⟩ := uShape_shape hf
    have : c = m := head_some_eq hh (by rw [hmt]; rfl)
    rcases hm with h | h | h
    · exact absurd (this.trans h) hc1
    · exact absurd (this.trans h) hc2
    · exact absurd (this.trans h) hc3

theorem oShape_false_of_head {l : String} {c : Char}
    (hh : (trimC l.data).head? = some c) (hc : c.isDigit = false) :
    oShape (trimC l.data) = false := by
  cases hf : oShape (trimC l.data)
  · rfl
  · obtain ⟨d, t, hdt, hd⟩ := oShape_shape hf
    have : c = d := head_some_eq hh (by rw [hdt]; rfl)
    rw [this, hd] at hc
    cases hc

theorem tShape_false_of_head {l : String} {c : Char}
    (hh : (trimC l.data).head? = some c) (hc : c ≠ '|') :
    tShape (trimC l.data) = false := by
  cases hf : tShape (trimC l.data)
  · rfl
  · obtain ⟨t, ht⟩ := tShape_shape hf
    have : c = '|' := head_some_eq hh (by rw [ht]; rfl)
    exact absurd this hc

/-! ### Classification lemmas -/

theorem matchH26_none_of_isH1 {l : String} (h : isH1 l = true) : matchH26 l = none := by
  obtain ⟨t, ht, -⟩ := isH1_shape h
  unfold matchH26
  rw [ht, List.dropWhile_cons_of_pos (by decide), List.dropWhile_cons_of_neg (by decide),
    List.takeWhile_cons_of_pos (by decide), List.takeWhile_cons_of_neg (by decide)]
  simp

theorem classify_eq_image {b : Bool} {l p : String} (h : matchImage (strTrim l) = some p) :
    classify b l = .image p := by
  have hh : (trimC l.data).head? = some '!' := matchImage_head h
  have h1 : isH1 l = false := isH1_false_of_head hh (by decide)
  unfold classify
  rw [h1, h]
  simp

theorem classify_eq_table {b : Bool} {l : String} (h : tShape (trimC l.data) = true) :
    classify b l = .table := by
  obtain ⟨t, ht⟩ := tShape_shape h
  have hh : (trimC l.data).head? = some '|' := by rw [ht]; rfl
  have h1 : isH1 l = false := isH1_false_of_head hh (by decide)
  have h2 : matchImage (strTrim l) = none := matchImage_none_of_head hh (by decide)
  have h3 : is_divider l = false := is_divider_false_of_head hh (by decide) (by decide)
  have h4 : (trimC l.data).isEmpty = false := isEmpty_false_of_head hh
  have h5 : matchH26 l = none := matchH26_none_of_head hh (by decide)
  have h6 : quoteCont l = false := quoteCont_false_of_head hh (by decide)
  have h7 : uShape (trimC l.data) = false :=
    uShape_false_of_head hh (by decide) (by decide) (by decide)
  have h8 : oShape (trimC l.data) = false := oShape_false_of_head hh (by decide)
  unfold classify
  rw [h1, h2, h3, h4, h5, h6, h7, h8, h]
  simp

theorem classify_eq_para_of_h1 {l : String} (hH : isH1 l = true) :
    classify false l = .para := by
  have hh := isH1_head hH
  have h2 : matchImage (strTrim l) = none := matchImage_none_of_head hh (by decide)
  have h3 : is_divider l = false := is_divider_false_of_head hh (by decide) (by decide)
  have h4 : (trimC l.data).isEmpty = false := isEmpty_false_of_head hh
  have h5 : matchH26 l = none := matchH26_none_of_isH1 hH
  have h6 : quoteCont l = false := quoteCont_false_of_head hh (by decide)
  have h7 : uShape (trimC l.data) = false :=
    uShape_false_of_head hh (by decide) (by decide) (by decide)
  have h8 : oShape (trimC l.data) = false := oShape_false_of_head hh (by decide)
  have h9 : tShape (trimC l.data) = false := tShape_false_of_head hh (by decide)
  unfold classify
  rw [hH, h2, h3, h4, h5, h6, h7, h8, h9]
  simp

/-! ### Paragraph refusal of a second top-level heading -/

theorem dropWhile_ne_nil_of_mem {p : Char → Bool} {l : List Char} {x : Char}
    (hx : x ∈ l) (hpx : p x = false) : l.dropWhile p ≠ [] := by
  induction l with
  | nil => cases hx
  | cons a t ih =>
    by_cases ha : p a = true
    · rw [List.dropWhile_cons_of_pos ha]
      rcases List.mem_cons.mp hx with h | h
      · rw [h] at hpx
        rw [hpx] at ha
        cases ha
      · exact ih h
    · rw [List.dropWhile_cons_of_neg ha]
      exact List.cons_ne_nil a t

theorem dropTrail_cons_of_exists {a : Char} {l : List Char}
    (h : ∃ x ∈ l, wsC x = false) : dropTrail (a :: l) = a :: dropTrail l := by
  obtain ⟨x, hx, hpx⟩ := h
  have hne : l.reverse.dropWhile wsC ≠ [] :=
    dropWhile_ne_nil_of_mem (List.mem_reverse.mpr hx) hpx
  unfold dropTrail
  rw [List.reverse_cons, List.dropWhile_append, if_neg (by simp [hne]),
    List.reverse_append]
  rfl

theorem exists_nonws_of_trimC_ne {t : List Char} (h : trimC t ≠ []) :
    ∃ x ∈ t, wsC x = false := by
  by_contra hc
  push_neg at hc
  have hall : ∀ x ∈ t, wsC x = true := by
    intro x hx
    have := hc x hx
    cases hw : wsC x
    · exact absurd hw this
    · rfl
  apply h
  unfold trimC
  rw [List.dropWhile_eq_nil_iff.mpr hall]
  rfl

theorem is_block_start_of_h1 {l : String} (hH : isH1 l = true) (htx : h1Text l ≠ "") :
    is_block_start l = true := by
  obtain ⟨t, ht, -⟩ := isH1_shape hH
  have htne : trimC t ≠ [] := by
    intro hc
    apply htx
    unfold h1Text
    rw [ht]
    show String.mk (trimC t) = ""
    rw [hc]
  have hex := exists_nonws_of_trimC_ne htne
  have hex2 : ∃ x ∈ ' ' :: t, wsC x = false := by
    obtain ⟨x, hx, hpx⟩ := hex
    exact ⟨x, List.mem_cons_of_mem _ hx, hpx⟩
  have htr : trimC l.data = '#' :: ' ' :: dropTrail t := by
    rw [ht]
    unfold trimC
    rw [List.dropWhile_cons_of_neg (by decide), dropTrail_cons_of_exists hex2,
      dropTrail_cons_of_exists hex]
  have hB : (1 ≤ ((trimC l.data).takeWhile (fun c => c = '#')).length &&
      ((trimC l.data).takeWhile (fun c => c = '#')).length ≤ 6 &&
      leadsWith [' '] ((trimC l.data).dropWhile (fun c => c = '#'))) = true := by
    rw [htr, List.takeWhile_cons_of_pos (by decide), List.takeWhile_cons_of_neg (by decide),
      List.dropWhile_cons_of_pos (by decide), List.dropWhile_cons_of_neg (by decide)]
    simp [leadsWith]
  unfold is_block_start
  rw [hB]
  simp

/-! ### Single step equations of the scan loop -/

theorem parseFuel_cons (md : String) (f : Nat) (st : St) (l : String) (rest : List String) :
    parseFuel md (f + 1) st (l :: rest) =
      parseFuel md f (stepOf md st l rest).1 (stepOf md st l rest).2 := rfl

theorem stepOf_fence_open {md : String} {st : St} {l : String} {rest : List String}
    (hic : st.in_code = false) (hf : isFence l = true) :
    stepOf md st l rest =
      ({st with in_code := true, code_lang := fenceLang l, code_content := []}, rest) := by
  simp [stepOf, hf, hic]

theorem stepOf_incode {md : String} {st : St} {l : String} {rest : List String}
    (hic : st.in_code = true) (hf : isFence l = false) :
    stepOf md st l rest = ({st with code_content := st.code_content ++ [l]}, rest) := by
  simp [stepOf, hf, hic]

theorem stepOf_image_cover {md : String} {st : St} {l p : String} {rest : List String}
    (hic : st.in_code = false) (h : matchImage (strTrim l) = some p)
    (hfis : st.first_image_seen = false) :
    stepOf md st l rest =
      ({st with cover_image := some (resolvePath md p), first_image_seen := true}, rest) := by
  have hh : (trimC l.data).head? = some '!' := matchImage_head h
  have hf : isFence l = false := isFence_false_of_head hh (by decide)
  have hc : classify (st.title == "") l = .image p := classify_eq_image h
  simp [stepOf, hf, hic, hc, hfis]

theorem stepOf_image_content {md : String} {st : St} {l p : String} {rest : List String}
    (hic : st.in_code = false) (h : matchImage (strTrim l) = some p)
    (hfis : st.first_image_seen = true) :
    stepOf md st l rest =
      ({st with content_images :=
        st.content_images ++ [⟨resolvePath md p, st.block_index⟩]}, rest) := by
  have hh : (trimC l.data).head? = some '!' := matchImage_head h
  have hf : isFence l = false := isFence_false_of_head hh (by decide)
  have hc : classify (st.title == "") l = .image p := classify_eq_image h
  simp [stepOf, hf, hic, hc, hfis]

theorem stepOf_table_run {md : String} {st : St} {l : String} {rest : List String}
    (hic : st.in_code = false) (hT : tShape (trimC l.data) = true)
    (h2 : 2 ≤ ((l :: rest).takeWhile tCont).length) :
    stepOf md st l rest =
      ({st with
        code_blocks := st.code_blocks ++
          [⟨"__table__", joinSep "\n" (((l :: rest).takeWhile tCont).map strTrim),
            st.block_index⟩]
        block_index := st.block_index + 1}, (l :: rest).dropWhile tCont) := by
  obtain ⟨t, ht⟩ := tShape_shape hT
  have hh : (trimC l.data).head? = some '|' := by rw [ht]; rfl
  have hf : isFence l = false := isFence_false_of_head hh (by decide)
  have hc : classify (st.title == "") l = .table := classify_eq_table hT
  simp [stepOf, hf, hic, hc, h2]

theorem stepOf_table_short {md : String} {st : St} {l : String} {rest : List String}
    (hic : st.in_code = false) (hT : tShape (trimC l.data) = true)
    (h2 : ((l :: rest).takeWhile tCont).length < 2) :
    stepOf md st l rest = (st, (l :: rest).dropWhile tCont) := by
  obtain ⟨t, ht⟩ := tShape_shape hT
  have hh : (trimC l.data).head? = some '|' := by rw [ht]; rfl
  have hf : isFence l = false := isFence_false_of_head hh (by decide)
  have hc : classify (st.title == "") l = .table := classify_eq_table hT
  simp [stepOf, hf, hic, hc, Nat.not_le.mpr h2]

theorem stepOf_h1_drop {md : String} {st : St} {l : String} {rest : List String}
    (hic : st.in_code = false) (hH : isH1 l = true) (ht : st.title ≠ "")
    (htx : h1Text l ≠ "") :
    stepOf md st l rest = (st, rest) := by
  have hh := isH1_head hH
  have hf : isFence l = false := isFence_false_of_head hh (by decide)
  have hb : (st.title == "") = false := beq_eq_false_iff_ne.mpr ht
  have hc : classify (st.title == "") l = .para := by
    rw [hb]
    exact classify_eq_para_of_h1 hH
  have hpc : paraCont l = false := by
    unfold paraCont
    rw [is_block_start_of_h1 hH htx]
    simp
  have hTW : (l :: rest).takeWhile paraCont = [] :=
    List.takeWhile_cons_of_neg (by simp [hpc])
  simp [stepOf, hf, hic, hc, hTW]

/-! ### Preservation of the block-index invariant -/

theorem pairwise_le_append_one {xs : List Nat} {b : Nat}
    (h1 : List.Pairwise (· ≤ ·) xs) (h2 : ∀ x ∈ xs, x ≤ b) :
    List.Pairwise (· ≤ ·) (xs ++ [b]) := by
  rw [List.pairwise_append]
  refine ⟨h1, List.pairwise_singleton _ _, ?_⟩
  intro a ha y hy
  rw [List.mem_singleton] at hy
  rw [hy]
  exact h2 a ha

theorem langOr_ne (s : String) : langOr s ≠ "" := by
  unfold langOr
  split
  · decide
  · assumption

theorem StInv_initSt : StInv initSt := by
  simp [StInv, initSt]

theorem StInv_addImage {st : St} (h : StInv st) (p : String) :
    StInv {st with content_images := st.content_images ++ [⟨p, st.block_index⟩]} := by
  obtain ⟨h1, h2, h3, h4, h5, h6, h7, h8⟩ := h
  refine ⟨h1, ?_, h3, h4, ?_, h6, h7, h8⟩
  · intro e he
    rcases List.mem_append.mp he with hA | hB
    · exact h2 e hA
    · rw [List.mem_singleton] at hB
      rw [hB]
  · show List.Pairwise (· ≤ ·)
      ((st.content_images ++ [(⟨p, st.block_index⟩ : ImageRef)]).map ImageRef.block_index)
    rw [List.map_append]
    apply pairwise_le_append_one h5
    intro x hx
    obtain ⟨e, he, hfe⟩ := List.mem_map.mp hx
    rw [← hfe]
    exact h2 e he

theorem StInv_addDivider {st : St} (h : StInv st) :
    StInv {st with dividers := st.dividers ++ [st.block_index]} := by
  obtain ⟨h1, h2, h3, h4, h5, h6, h7, h8⟩ := h
  refine ⟨h1, h2, h3, ?_, h5, h6, ?_, h8⟩
  · intro n hn
    rcases List.mem_append.mp hn with hA | hB
    · exact h4 n hA
    · rw [List.mem_singleton] at hB
      rw [hB]
  · exact pairwise_le_append_one h7 h4

theorem StInv_addBody {st : St} (h : StInv st) (x : String) :
    StInv {st with
      body_lines := st.body_lines ++ [x]
      block_index := st.block_index + 1} := by
  obtain ⟨h1, h2, h3, h4, h5, h6, h7, h8⟩ := h
  refine ⟨?_, ?_, ?_, ?_, h5, h6, h7, h8⟩
  · show st.block_index + 1 = (st.body_lines ++ [x]).length + st.code_blocks.length
    rw [List.length_append, h1]
    simp
    omega
  · exact fun e he => Nat.le_succ_of_le (h2 e he)
  · exact fun e he => Nat.le_succ_of_le (h3 e he)
  · exact fun n hn => Nat.le_succ_of_le (h4 n hn)

theorem StInv_addCode {st : St} (h : StInv st) {lg : String} (cd : String) (hlg : lg ≠ "") :
    StInv {st with
      code_blocks := st.code_blocks ++ [⟨lg, cd, st.block_index⟩]
      block_index := st.block_index + 1} := by
  obtain ⟨h1, h2, h3, h4, h5, h6, h7, h8⟩ := h
  refine ⟨?_, ?_, ?_, ?_, h5, ?_, h7, ?_⟩
  · show st.block_index + 1 =
      st.body_lines.length + (st.code_blocks ++ [(⟨lg, cd, st.block_index⟩ : CodeBlock)]).length
    rw [List.length_append, h1]
    simp
    omega
  · exact fun e he => Nat.le_succ_of_le (h2 e he)
  · intro e he
    rcases List.mem_append.mp he with hA | hB
    · exact Nat.le_succ_of_le (h3 e hA)
    · rw [List.mem_singleton] at hB
      rw [hB]
      exact Nat.le_succ _
  · exact fun n hn => Nat.le_succ_of_le (h4 n hn)
  · show List.Pairwise (· ≤ ·)
      ((st.code_blocks ++ [(⟨lg, cd, st.block_index⟩ : CodeBlock)]).map CodeBlock.block_index)
    rw [List.map_append]
    apply pairwise_le_append_one h6
    intro x hx
    obtain ⟨e, he, hfe⟩ := List.mem_map.mp hx
    rw [← hfe]
    exact h3 e he
  · intro e he
    rcases List.mem_append.mp he with hA | hB
    · exact h8 e hA
    · rw [List.mem_singleton] at hB
      rw [hB]
      exact hlg

theorem StInv_stepOf (md : String) (st : St) (l : String) (rest : List String)
    (h : StInv st) : StInv (stepOf md st l rest).1 := by
  unfold stepOf
  split
  · split
    · split
      · exact h
      · exact StInv_addCode h _ (langOr_ne _)
    · exact h
  · split
    · exact h
    · split
      · exact h
      · split
        · exact StInv_addImage h _
        · exact h
      · exact StInv_addDivider h
      · exact h
      · exact StInv_addBody h _
      · exact StInv_addBody h _
      · exact StInv_addBody h _
      · exact StInv_addBody h _
      · split
        · exact StInv_addCode h _ (by decide)
        · exact h
      · split
        · exact h
        · exact StInv_addBody h _

theorem StInv_parseFuel (md : String) : ∀ (f : Nat) (st : St) (ls : List String),
    StInv st → StInv (parseFuel md f st ls) := by
  intro f
  induction f with
  | zero => intro st ls h; exact h
  | succ f ih =>
    intro st ls h
    cases ls with
    | nil => exact h
    | cons l rest =>
      rw [parseFuel_cons]
      exact ih _ _ (StInv_stepOf md st l rest h)

/-! ### Inside an unterminated code fence the document no longer changes -/

theorem docOf_parseFuel_incode (md : String) : ∀ (f : Nat) (st : St) (ls : List String),
    st.in_code = true → (∀ x ∈ ls, isFence x = false) →
    docOf (parseFuel md f st ls) = docOf st := by
  intro f
  induction f with
  | zero => intro st ls h1 h2; rfl
  | succ f ih =>
    intro st ls h1 h2
    cases ls with
    | nil => rfl
    | cons l rest =>
      rw [parseFuel_cons, stepOf_incode h1 (h2 l (List.mem_cons_self l rest))]
      calc docOf (parseFuel md f {st with code_content := st.code_content ++ [l]} rest)
          = docOf {st with code_content := st.code_content ++ [l]} :=
            ih _ rest h1 (fun x hx => h2 x (List.mem_cons_of_mem l hx))
        _ = docOf st := rfl

/-! ### The claims -/

/-- C1: for every input, every block_index recorded in content_images,
code_blocks and dividers is at most the returned total_blocks (non-negativity
holds because indices are naturals); total_blocks equals the number of HTML
body blocks plus the number of code_blocks entries, and html is exactly the
newline-join of those body blocks; and within each of the three lists the
recorded indices are non-decreasing in encounter order. -/
theorem claim_C1 (md content : String) :
    (parse_markdown md content).total_blocks =
        (parseSt md content).body_lines.length +
          (parse_markdown md content).code_blocks.length ∧
    (parse_markdown md content).html = joinSep "\n" (parseSt md content).body_lines ∧
    (∀ e ∈ (parse_markdown md content).content_images,
        e.block_index ≤ (parse_markdown md content).total_blocks) ∧
    (∀ e ∈ (parse_markdown md content).code_blocks,
        e.block_index ≤ (parse_markdown md content).total_blocks) ∧
    (∀ n ∈ (parse_markdown md content).dividers,
        n ≤ (parse_markdown md content).total_blocks) ∧
    List.Pairwise (· ≤ ·)
      ((parse_markdown md content).content_images.map ImageRef.block_index) ∧
    List.Pairwise (· ≤ ·)
      ((parse_markdown md content).code_blocks.map CodeBlock.block_index) ∧
    List.Pairwise (· ≤ ·) (parse_markdown md content).dividers := by
  obtain ⟨h1, h2, h3, h4, h5, h6, h7, -⟩ :=
    StInv_parseFuel md (mdLines content).length initSt (mdLines content) StInv_initSt
  exact ⟨h1, rfl, h2, h3, h4, h5, h6, h7⟩

/-- Witness for C1 at a concrete document with a heading and a divider. -/
theorem claim_C1_witness : (1 : Nat) ≤ (parse_markdown "" "## h\n---").total_blocks :=
  (claim_C1 "" "## h\n---").2.2.2.2.1 1 (by decide)

/-- C2: outside code fences, an image line seen while no image has been seen
yet becomes the cover image (recorded resolved), is not added to
content_images, and does not advance the block index; any later image line is
appended to content_images at the current block index without creating a
block; and the spec's example document parses as stated. -/
theorem claim_C2 :
    (∀ (md : String) (f : Nat) (st : St) (l : String) (rest : List String) (p : String),
        st.in_code = false → matchImage (strTrim l) = some p →
        st.first_image_seen = false →
        parseFuel md (f + 1) st (l :: rest) =
          parseFuel md f
            {st with cover_image := some (resolvePath md p), first_image_seen := true}
            rest) ∧
    (∀ (md : String) (f : Nat) (st : St) (l : String) (rest : List String) (p : String),
        st.in_code = false → matchImage (strTrim l) = some p →
        st.first_image_seen = true →
        parseFuel md (f + 1) st (l :: rest) =
          parseFuel md f
            {st with content_images :=
              st.content_images ++ [⟨resolvePath md p, st.block_index⟩]}
            rest) ∧
    parse_markdown "" "![a](x.png)\ntext\n![b](y.png)" =
      ⟨"", some "x.png", [(⟨"y.png", 1⟩ : ImageRef)], [], [], 1, "<p>text</p>"⟩ := by
  refine ⟨?_, ?_, by decide⟩
  · intro md f st l rest p hic h hfis
    rw [parseFuel_cons, stepOf_image_cover hic h hfis]
  · intro md f st l rest p hic h hfis
    rw [parseFuel_cons, stepOf_image_content hic h hfis]

/-- Witness for C2, instantiating the cover-image step at a concrete state. -/
theorem claim_C2_witness :
    parseFuel "" 1 initSt ["![a](x.png)"] =
      parseFuel "" 0
        {initSt with cover_image := some (resolvePath "" "x.png"), first_image_seen := true}
        [] :=
  claim_C2.1 "" 0 initSt "![a](x.png)" [] "x.png" rfl (by decide) rfl

/-- C3 counterexample: in "# A\ntext\n# B" the second top-level heading is
dropped entirely — the document has title "A", html "<p>text</p>" with a
single block, and no h1 tag anywhere — contradicting the claim that B is
emitted as an h1 HTML block. -/
theorem claim_C3_cex :
    parse_markdown "" "# A\ntext\n# B" = ⟨"A", none, [], [], [], 1, "<p>text</p>"⟩ ∧
    occursIn "<h1>".data (parse_markdown "" "# A\ntext\n# B").html.data = false :=
  ⟨by decide, by decide⟩

/-- C3 amended: only the first top-level heading is consumed as title; every
later top-level heading (with non-blank heading text) is silently dropped —
it emits no HTML, creates no entries, and does not advance the block index. -/
theorem claim_C3_amended :
    (∀ (md : String) (f : Nat) (st : St) (l : String) (rest : List String),
        st.in_code = false → isH1 l = true → st.title ≠ "" → h1Text l ≠ "" →
        parseFuel md (f + 1) st (l :: rest) = parseFuel md f st rest) ∧
    (parse_markdown "" "# A\ntext\n# B").title = "A" := by
  refine ⟨?_, by decide⟩
  intro md f st l rest hic hH ht htx
  rw [parseFuel_cons, stepOf_h1_drop hic hH ht htx]

/-- Witness for the amended C3 at a concrete state with the title set. -/
theorem claim_C3_witness :
    parseFuel "" 1 {initSt with title := "A"} ["# B"] =
      parseFuel "" 0 {initSt with title := "A"} [] :=
  claim_C3_amended.1 "" 0 {initSt with title := "A"} "# B" [] rfl (by decide)
    (by decide) (by decide)

/-- C4 counterexample: the single line "| A | B |" is consumed by the table
branch and discarded — the resulting document has empty html, no code_blocks
entry and zero blocks — contradicting the claimed paragraph fallback. -/
theorem claim_C4_cex :
    parse_markdown "" "| A | B |" = ⟨"", none, [], [], [], 0, ""⟩ ∧
    occursIn "<p>".data (parse_markdown "" "| A | B |").html.data = false :=
  ⟨by decide, by decide⟩

/-- C4 amended: when a pipe-delimited line is not followed by enough
qualifying lines (run shorter than two), the scanner consumes the run and
drops it: no HTML block, no code_blocks entry, no state change at all. -/
theorem claim_C4_amended :
    (∀ (md : String) (f : Nat) (st : St) (l : String) (rest : List String),
        st.in_code = false → tShape (trimC l.data) = true →
        ((l :: rest).takeWhile tCont).length < 2 →
        parseFuel md (f + 1) st (l :: rest) =
          parseFuel md f st ((l :: rest).dropWhile tCont)) ∧
    (parse_markdown "" "| A | B |").html = "" ∧
    (parse_markdown "" "| A | B |").code_blocks = [] := by
  refine ⟨?_, by decide, by decide⟩
  intro md f st l rest hic hT hlt
  rw [parseFuel_cons, stepOf_table_short hic hT hlt]

/-- Witness for the amended C4 on the lone pipe-delimited line. -/
theorem claim_C4_witness :
    parseFuel "" 1 initSt ["| A | B |"] =
      parseFuel "" 0 initSt (["| A | B |"].dropWhile tCont) :=
  claim_C4_amended.1 "" 0 initSt "| A | B |" [] rfl (by decide) (by decide)

/-- C5: a run of at least two contiguous pipe-delimited lines containing a
valid separator row produces exactly one code_blocks entry with the reserved
table sentinel language and the captured (stripped) table lines joined by
newlines, recorded at the current block index, and advances the index by
one; and the spec's three-line example parses as stated. -/
theorem claim_C5 :
    (∀ (md : String) (f : Nat) (st : St) (l : String) (rest : List String),
        st.in_code = false → tShape (trimC l.data) = true →
        2 ≤ ((l :: rest).takeWhile tCont).length →
        (∃ r ∈ (l :: rest).takeWhile tCont, isSepRow (strTrim r) = true) →
        parseFuel md (f + 1) st (l :: rest) =
          parseFuel md f
            {st with
              code_blocks := st.code_blocks ++
                [⟨"__table__", joinSep "\n" (((l :: rest).takeWhile tCont).map strTrim),
                  st.block_index⟩]
              block_index := st.block_index + 1}
            ((l :: rest).dropWhile tCont)) ∧
    parse_markdown "" "| A | B |\n|---|---|\n| 1 | 2 |" =
      ⟨"", none, [],
        [(⟨"__table__", "| A | B |\n|---|---|\n| 1 | 2 |", 0⟩ : CodeBlock)], [], 1, ""⟩ := by
  refine ⟨?_, by decide⟩
  intro md f st l rest hic hT h2 hsep
  rw [parseFuel_cons, stepOf_table_run hic hT h2]

/-- Witness for C5 on the three-line table. -/
theorem claim_C5_witness :
    parseFuel "" 1 initSt ["| A | B |", "|---|---|", "| 1 | 2 |"] =
      parseFuel "" 0
        {initSt with
          code_blocks := initSt.code_blocks ++
            [⟨"__table__",
              joinSep "\n"
                ((["| A | B |", "|---|---|", "| 1 | 2 |"].takeWhile tCont).map strTrim),
              initSt.block_index⟩]
          block_index := initSt.block_index + 1}
        (["| A | B |", "|---|---|", "| 1 | 2 |"].dropWhile tCont) :=
  claim_C5.1 "" 0 initSt "| A | B |" ["|---|---|", "| 1 | 2 |"] rfl (by decide)
    (by decide) ⟨"|---|---|", by decide, by decide⟩

/-- C6: an opening fence with no matching closing fence leaves the returned
document identical to the one produced by the input truncated at the opening
fence: the remaining lines produce no HTML blocks, no content_images or
dividers entries, no code_blocks entries, and leave the block index
unchanged. -/
theorem claim_C6 :
    ∀ (md : String) (f : Nat) (st : St) (l : String) (rest : List String),
      st.in_code = false → isFence l = true → (∀ x ∈ rest, isFence x = false) →
      docOf (parseFuel md (f + 1) st (l :: rest)) = docOf (parseFuel md 1 st [l]) := by
  intro md f st l rest hic hf hall
  conv_lhs => rw [parseFuel_cons, stepOf_fence_open hic hf]
  conv_rhs => rw [parseFuel_cons, stepOf_fence_open hic hf]
  rw [docOf_parseFuel_incode md f _ rest rfl hall]
  rfl

/-- Witness for C6: a fenced region that never closes. -/
theorem claim_C6_witness :
    docOf (parseFuel "" 3 initSt ["```py", "x", "y"]) =
      docOf (parseFuel "" 1 initSt ["```py"]) :=
  claim_C6 "" 2 initSt "```py" ["x", "y"] rfl (by decide) (by decide)

/-- C10: every code_blocks entry of any parsed document has a non-empty
language string, and a fenced block whose opening fence carries no language
tag yields the literal language "text". -/
theorem claim_C10 :
    (∀ (md content : String), ∀ e ∈ (parse_markdown md content).code_blocks,
        e.language ≠ "") ∧
    (parse_markdown "" "```\nx\n```").code_blocks =
      [(⟨"text", "x", 0⟩ : CodeBlock)] := by
  refine ⟨?_, by decide⟩
  intro md content e he
  exact (StInv_parseFuel md (mdLines content).length initSt (mdLines content)
    StInv_initSt).2.2.2.2.2.2.2 e he

/-- Witness for C10 at the untagged fenced block. -/
theorem claim_C10_witness : ("text" : String) ≠ "" :=
  claim_C10.1 "" "```\nx\n```" ⟨"text", "x", 0⟩ (by decide)

/-! ### Inline formatting: idempotence fails; a marker-free criterion holds -/

theorem data_mk (l : List Char) : (String.mk l).data = l := rfl

theorem subWrap_id (bad : Char → Bool) (dopen dclose L R : List Char) (d0 : Char)
    (hd : dopen.head? = some d0) :
    ∀ (f : Nat) (l : List Char), (∀ c ∈ l, c ≠ d0) →
      subWrap bad dopen dclose L R f l = l := by
  intro f
  induction f with
  | zero => intro l h; rfl
  | succ f ih =>
    intro l h
    cases l with
    | nil => rfl
    | cons c cs =>
      have hlw : leadsWith dopen (c :: cs) = false := by
        cases dopen with
        | nil => cases hd
        | cons a as =>
          have ha : a = d0 := Option.some.inj hd
          cases hl : leadsWith (a :: as) (c :: cs)
          · rfl
          · obtain ⟨t, ht, -⟩ := leadsWith_cons hl
            injection ht with h1 h2
            exact absurd (h1.trans ha) (h c (List.mem_cons_self c cs))
      unfold subWrap
      simp [hlw, ih cs (fun x hx => h x (List.mem_cons_of_mem c hx))]

theorem subLink_id : ∀ (f : Nat) (l : List Char), (∀ c ∈ l, c ≠ '[') →
    subLink f l = l := by
  intro f
  induction f with
  | zero => intro l h; rfl
  | succ f ih =>
    intro l h
    cases l with
    | nil => rfl
    | cons c cs =>
      unfold subLink
      simp [h c (List.mem_cons_self c cs),
        ih cs (fun x hx => h x (List.mem_cons_of_mem c hx))]

theorem inline_format_id_of_noMark (t : String) (h : noMark t = true) :
    inline_format t = t := by
  have hall := List.all_eq_true.mp h
  have hsplit : ∀ c ∈ t.data, c ≠ '*' ∧ c ≠ '~' ∧ c ≠ btick ∧ c ≠ '[' := by
    intro c hc
    have := hall c hc
    simp at this
    exact ⟨this.1.1.1, this.1.1.2, this.1.2, this.2⟩
  have hStar : ∀ c ∈ t.data, c ≠ '*' := fun c hc => (hsplit c hc).1
  have hTilde : ∀ c ∈ t.data, c ≠ '~' := fun c hc => (hsplit c hc).2.1
  have hTick : ∀ c ∈ t.data, c ≠ btick := fun c hc => (hsplit c hc).2.2.1
  have hBrack : ∀ c ∈ t.data, c ≠ '[' := fun c hc => (hsplit c hc).2.2.2
  have e1 : subWrap (fun c => c = '\n') "***".data "***".data "<strong><em>".data
      "</em></strong>".data t.data.length t.data = t.data :=
    subWrap_id (fun c => c = '\n') "***".data "***".data "<strong><em>".data
      "</em></strong>".data '*' rfl _ _ hStar
  have e2 : subWrap (fun c => c = '\n') "**".data "**".data "<strong>".data
      "</strong>".data t.data.length t.data = t.data :=
    subWrap_id (fun c => c = '\n') "**".data "**".data "<strong>".data
      "</strong>".data '*' rfl _ _ hStar
  have e3 : subWrap (fun c => c = '\n') "*".data "*".data "<em>".data "</em>".data
      t.data.length t.data = t.data :=
    subWrap_id (fun c => c = '\n') "*".data "*".data "<em>".data "</em>".data
      '*' rfl _ _ hStar
  have e4 : subWrap (fun c => c = '\n') "~~".data "~~".data "<del>".data "</del>".data
      t.data.length t.data = t.data :=
    subWrap_id (fun c => c = '\n') "~~".data "~~".data "<del>".data "</del>".data
      '~' rfl _ _ hTilde
  have e5 : subWrap (fun c => c = btick) [btick] [btick] "<strong>".data
      "</strong>".data t.data.length t.data = t.data :=
    subWrap_id (fun c => c = btick) [btick] [btick] "<strong>".data
      "</strong>".data btick rfl _ _ hTick
  have e6 : subLink t.data.length t.data = t.data := subLink_id _ _ hBrack
  simp only [inline_format]
  rw [e1, e2, e3, e4, e5, e6]

/-- C8 counterexample: the Inline Formatter is not idempotent — formatting
"****" yields "<em>*</em>*", and formatting that output again rewrites it to
"<em><em></em></em>". -/
theorem claim_C8_cex :
    inline_format "****" = "<em>*</em>*" ∧
    inline_format (inline_format "****") = "<em><em></em></em>" ∧
    inline_format (inline_format "****") ≠ inline_format "****" :=
  ⟨by decide, by decide, by decide⟩

/-- C8 amended: the Inline Formatter is idempotent on every input whose
formatted output contains none of the marker characters star, tilde,
backtick, opening bracket (in particular, no already-converted span is
rewritten in that case); it is not idempotent in general. -/
theorem claim_C8_amended :
    ∀ s : String, noMark (inline_format s) = true →
      inline_format (inline_format s) = inline_format s :=
  fun s h => inline_format_id_of_noMark (inline_format s) h

/-- Witness for the amended C8 on a bold span. -/
theorem claim_C8_witness :
    noMark (inline_format "a**b**c") = true ∧
    inline_format (inline_format "a**b**c") = inline_format "a**b**c" :=
  ⟨by decide, claim_C8_amended "a**b**c" (by decide)⟩

/-! ### strip_frontmatter searches for the substring, not for marker lines -/

theorem findFrom_isSome_shift (needle : List Char) :
    ∀ (l : List Char) (k : Nat),
      (findFrom needle l k).isSome = (findFrom needle l 0).isSome := by
  intro l
  induction l with
  | nil =>
    intro k
    unfold findFrom
    by_cases h : leadsWith needle [] = true <;> simp [h]
  | cons c t ih =>
    intro k
    unfold findFrom
    by_cases h : leadsWith needle (c :: t) = true
    · simp [h]
    · simp [h]
      rw [ih (k + 1), ih 1]

theorem occursIn_cons (needle : List Char) (c : Char) (l : List Char) :
    occursIn needle (c :: l) = (leadsWith needle (c :: l) || occursIn needle l) := by
  by_cases h : leadsWith needle (c :: l) = true
  · unfold occursIn
    rw [show findFrom needle (c :: l) 0 = some 0 from by
      conv_lhs => unfold findFrom
      rw [if_pos h]]
    simp [h]
  · unfold occursIn
    rw [show findFrom needle (c :: l) 0 = findFrom needle l 1 from by
      conv_lhs => unfold findFrom
      rw [if_neg h]]
    simp [h]
    exact findFrom_isSome_shift needle l 1

theorem leadsWith_ddd_clip {c : Char} (u v : List Char)
    (h : leadsWith ['-', '-', '-'] (c :: (u ++ (['-', '-', '-'] ++ v))) = true) :
    leadsWith ['-', '-', '-'] (c :: (u ++ ['-', '-'])) = true := by
  rcases u with _ | ⟨d, _ | ⟨e, u'⟩⟩ <;> simp [leadsWith] at h ⊢ <;> tauto

theorem findFrom_marker (v : List Char) :
    ∀ (u : List Char), occursIn ['-', '-', '-'] (u ++ ['-', '-']) = false →
      ∀ k, findFrom ['-', '-', '-'] (u ++ (['-', '-', '-'] ++ v)) k = some (k + u.length) := by
  intro u
  induction u with
  | nil =>
    intro hno k
    simp only [List.nil_append, List.cons_append]
    unfold findFrom
    rw [if_pos]
    · simp
    · exact leadsWith_refl_append ['-', '-', '-'] v
  | cons c u ih =>
    intro hno k
    simp only [List.cons_append] at hno
    have hparts := Bool.or_eq_false_iff.mp ((occursIn_cons _ _ _).symm.trans hno)
    have hlw : leadsWith ['-', '-', '-'] (c :: (u ++ (['-', '-', '-'] ++ v))) = false := by
      cases hl : leadsWith ['-', '-', '-'] (c :: (u ++ (['-', '-', '-'] ++ v)))
      · rfl
      · exact absurd (leadsWith_ddd_clip u v hl) (by simp [hparts.1])
    have ihk := ih hparts.2 (k + 1)
    simp only [List.cons_append, List.nil_append] at hlw ihk ⊢
    unfold findFrom
    rw [if_neg (by simp [hlw]), ihk]
    congr 1
    simp
    omega

theorem strip_frontmatter_unchanged_of_no_dashes {text : String}
    (h : leadsWith ['-', '-', '-'] text.data = false) :
    strip_frontmatter text = text := by
  unfold strip_frontmatter
  rw [if_neg (by simp [h])]

theorem strip_frontmatter_unchanged_of_no_close {text : String}
    (h : occursIn ['-', '-', '-'] (text.data.drop 3) = false) :
    strip_frontmatter text = text := by
  unfold strip_frontmatter
  have hfind : findFrom ['-', '-', '-'] (text.data.drop 3) 0 = none := by
    unfold occursIn at h
    cases hf : findFrom ['-', '-', '-'] (text.data.drop 3) 0
    · rfl
    · rw [hf] at h
      cases h
  rw [hfind]
  split <;> rfl

theorem strip_frontmatter_strips {mid rest : List Char}
    (hno : occursIn ['-', '-', '-'] (mid ++ ['-', '-']) = false) :
    strip_frontmatter
        (String.mk (['-', '-', '-'] ++ (mid ++ (['-', '-', '-'] ++ rest)))) =
      String.mk (rest.dropWhile (fun c => c = '\n')) := by
  unfold strip_frontmatter
  rw [data_mk,
    if_pos (leadsWith_refl_append ['-', '-', '-'] (mid ++ (['-', '-', '-'] ++ rest)))]
  have hdrop3 : (['-', '-', '-'] ++ (mid ++ (['-', '-', '-'] ++ rest))).drop 3 =
      mid ++ (['-', '-', '-'] ++ rest) := List.drop_left' rfl
  rw [hdrop3, findFrom_marker rest mid hno 0]
  dsimp only
  have hdropAll : (['-', '-', '-'] ++ (mid ++ (['-', '-', '-'] ++ rest))).drop
      (3 + (0 + mid.length) + 3) = rest := by
    have hassoc : ['-', '-', '-'] ++ (mid ++ (['-', '-', '-'] ++ rest)) =
        ((['-', '-', '-'] ++ mid) ++ ['-', '-', '-']) ++ rest := by
      simp [List.append_assoc]
    rw [hassoc]
    apply List.drop_left'
    simp
    omega
  rw [hdropAll]

/-- C7 counterexample: a text whose first line merely starts with "---" (it is
not the marker line) is still modified by strip_frontmatter, because the
implementation searches for the substring "---", not for a marker line. -/
theorem claim_C7_cex :
    beginsWithMarkerLine "--- hello\nworld\n--- bye\nrest" = false ∧
    strip_frontmatter "--- hello\nworld\n--- bye\nrest" ≠
      "--- hello\nworld\n--- bye\nrest" ∧
    strip_frontmatter "--- hello\nworld\n--- bye\nrest" = " bye\nrest" :=
  ⟨by decide, by decide, by decide⟩

/-- C7 amended: strip_frontmatter is substring-based: if the text does not
start with the substring "---", or starts with it but "---" does not occur
again at offset three or later, the text is returned unchanged; if the text
is "---" ++ mid ++ "---" ++ rest where the closing occurrence is the first
one after offset three (possibly mid-line), the result is rest with leading
newline characters (not all blank lines) removed.  The function is total and
never fails. -/
theorem claim_C7_amended :
    (∀ text : String, leadsWith ['-', '-', '-'] text.data = false →
        strip_frontmatter text = text) ∧
    (∀ text : String, occursIn ['-', '-', '-'] (text.data.drop 3) = false →
        strip_frontmatter text = text) ∧
    (∀ mid rest : List Char, occursIn ['-', '-', '-'] (mid ++ ['-', '-']) = false →
        strip_frontmatter
            (String.mk (['-', '-', '-'] ++ (mid ++ (['-', '-', '-'] ++ rest)))) =
          String.mk (rest.dropWhile (fun c => c = '\n'))) :=
  ⟨fun _ h => strip_frontmatter_unchanged_of_no_dashes h,
   fun _ h => strip_frontmatter_unchanged_of_no_close h,
   fun _ _ h => strip_frontmatter_strips h⟩

/-- Witness for the amended C7 on a well-formed frontmatter block. -/
theorem claim_C7_witness :
    strip_frontmatter
        (String.mk (['-', '-', '-'] ++ ("\nt: v\n".data ++ (['-', '-', '-'] ++ "\nbody".data)))) =
      String.mk ("\nbody".data.dropWhile (fun c => c = '\n')) :=
  claim_C7_amended.2.2 "\nt: v\n".data "\nbody".data (by decide)

/-! ### Image path resolution special-cases the literal prefix "http" -/

/-- C9 counterexample: "ftp://h/x.png" carries a URL scheme, yet the recorded
content image path is the path joined to the document directory and
normalised (which corrupts the scheme), because the code only tests for a
leading slash or the literal prefix "http". -/
theorem claim_C9_cex :
    carriesUrlScheme "ftp://h/x.png" = true ∧
    (parse_markdown "/d" "![a](c.png)\n![b](ftp://h/x.png)").content_images =
      [(⟨"/d/ftp:/h/x.png", 0⟩ : ImageRef)] ∧
    ("/d/ftp:/h/x.png" : String) ≠ "ftp://h/x.png" :=
  ⟨by decide, by decide, by decide⟩

/-- C9 amended: a recorded image path is left unchanged exactly when it is
absolute (leading slash) or starts with the literal prefix "http"; otherwise
it is joined to the source document's directory and normalised. -/
theorem claim_C9_amended :
    (∀ md p : String,
        (leadsWith ['/'] p.data || leadsWith ['h', 't', 't', 'p'] p.data) = true →
        resolvePath md p = p) ∧
    (∀ md p : String,
        (leadsWith ['/'] p.data || leadsWith ['h', 't', 't', 'p'] p.data) = false →
        resolvePath md p = normpath (pjoin md p)) ∧
    (parse_markdown "/d/e" "![a](../i.png)").cover_image = some "/d/i.png" ∧
    (parse_markdown "/d" "![a](/abs/i.png)").cover_image = some "/abs/i.png" ∧
    (parse_markdown "/d" "![a](http://h/i.png)").cover_image =
      some "http://h/i.png" := by
  refine ⟨?_, ?_, by decide, by decide, by decide⟩
  · intro md p h
    unfold resolvePath
    rw [show (!leadsWith ['/'] p.data && !leadsWith ['h', 't', 't', 'p'] p.data) = false
      from by rw [← Bool.not_or, h]; rfl]
    simp
  · intro md p h
    have hparts := Bool.or_eq_false_iff.mp h
    unfold resolvePath
    rw [hparts.1, hparts.2]
    simp

/-- Witness for the amended C9: an absolute path is untouched, a relative
path is joined and normalised. -/
theorem claim_C9_witness :
    resolvePath "/d" "/abs/i.png" = "/abs/i.png" ∧
    resolvePath "/d" "img/i.png" = normpath (pjoin "/d" "img/i.png") :=
  ⟨claim_C9_amended.1 "/d" "/abs/i.png" (by decide),
   claim_C9_amended.2.1 "/d" "img/i.png" (by decide)⟩

end MD
